import Mathlib

/-!
Shallow embedding of the questionnaire web application's core logic
(models `app/models/user.py`, `app/models/questionnaire.py`,
`app/models/response.py` and the answer-intake part of
`app/questionnaire/routes.py`), together with theorems settling the
specification claims about it.

Database rows are embedded as structures, row collections as lists (in
persistence order: query order for pre-existing rows, insertion order for
rows added by the code under study).  Python floats are modelled as
rationals, Python `round(x, 2)` as half-even rounding on rationals, and
Python string truthiness (`if s:`) as "present and non-empty".
-/

namespace QApp

/-! ## Python primitives used by the source -/

/-- Numeric value of a list of decimal digit characters. -/
def digitsVal (cs : List Char) : Nat :=
  cs.foldl (fun n c => 10 * n + (c.toNat - 48)) 0

/-- Parse an unsigned decimal literal (digits, optionally a dot and more
digits; at least one digit overall), as accepted by Python `float`. -/
def parseDecimal (cs : List Char) : Option ℚ :=
  let intDigits := cs.takeWhile Char.isDigit
  let rest := cs.dropWhile Char.isDigit
  match rest with
  | [] => if intDigits.isEmpty then none else some (digitsVal intDigits)
  | c :: fracDigits =>
    if c = '.' ∧ fracDigits.all Char.isDigit ∧ (intDigits ≠ [] ∨ fracDigits ≠ []) then
      some ((digitsVal intDigits : ℚ) + (digitsVal fracDigits : ℚ) / (10 ^ fracDigits.length))
    else none

/-- Python whitespace stripping of a character list on both ends. -/
def stripChars (cs : List Char) : List Char :=
  ((cs.dropWhile Char.isWhitespace).reverse.dropWhile Char.isWhitespace).reverse

/-- Python `float(s)` on a string, restricted to optionally signed decimal
literals with surrounding whitespace (the forms the application's scale
answers can take); `none` models the `ValueError` branch. -/
def pyFloat? (s : String) : Option ℚ :=
  match stripChars s.toList with
  | '+' :: cs => parseDecimal cs
  | '-' :: cs => (parseDecimal cs).map Neg.neg
  | cs => parseDecimal cs

/-- Python truthiness of an optional string (`request.form.get` result):
`None` and the empty string are falsy. -/
def pyTruthy : Option String → Bool
  | none => false
  | some s => s ≠ ""

/-- Python `", ".join(parts)`, as used for multiple-choice answers. -/
def pyJoinComma : List String → String
  | [] => ""
  | p :: rest => rest.foldl (fun acc x => acc ++ ", " ++ x) p

/-- Python `s.split(",")` on a character list: cut at every comma, keeping
empty segments. -/
def splitCommaChars (cs : List Char) (acc : List Char) : List (List Char) :=
  match cs with
  | [] => [acc.reverse]
  | c :: rest =>
    if c = ',' then acc.reverse :: splitCommaChars rest []
    else splitCommaChars rest (c :: acc)

/-- Python `s.split(",")` on a string. -/
def pySplitComma (s : String) : List String :=
  (splitCommaChars s.toList []).map fun cs => ⟨cs⟩

/-- Python `s.strip()` on a string. -/
def pyStrip (s : String) : String := ⟨stripChars s.toList⟩

/-- Python `int(x)` on a float: truncation toward zero. -/
def pyIntTrunc (x : ℚ) : ℤ := if x < 0 then -⌊-x⌋ else ⌊x⌋

/-- Python `round(x)` to an integer: round half to even. -/
def roundHalfEven (x : ℚ) : ℤ :=
  if x - ⌊x⌋ < 1/2 then ⌊x⌋
  else if 1/2 < x - ⌊x⌋ then ⌊x⌋ + 1
  else if ⌊x⌋ % 2 = 0 then ⌊x⌋ else ⌊x⌋ + 1

/-- Python `round(x, 2)`: round to two decimal places, half to even. -/
def pyRound2 (x : ℚ) : ℚ := (roundHalfEven (x * 100) : ℚ) / 100

/-! ## Data model (`app/models`) -/

/-- A row of the `questions` table; only the columns the claims exercise
are modelled (`question_text`, `options_json` and `order_index` play no
role in the verified logic, and `get_questions` presents the questions
already sorted by `order_index`). -/
structure Question where
  id : Nat
  question_type : String
  is_required : Bool
deriving DecidableEq

/-- A row of the `answers` table belonging to one fixed response, so
`response_id` is implicit; `answer_text` and `answer_value` are the two
nullable payload columns. -/
structure AnswerRow where
  question_id : Nat
  answer_text : Option String
  answer_value : Option ℚ
deriving DecidableEq

/-- A row of the `responses` table as seen from its questionnaire:
the responding user (none for anonymous) and the completion flag. -/
structure ResponseRow where
  user_id : Option Nat
  is_complete : Bool
deriving DecidableEq

/-- A row of the `users` table; roles are the strings
`user`, `creator`, `admin`. -/
structure User where
  id : Nat
  role : String
deriving DecidableEq

/-- A row of the `questionnaires` table with its response collection. -/
structure QuestionnaireRow where
  creator_id : Nat
  is_active : Bool
  is_public : Bool
  allow_anonymous : Bool
  allow_multiple_responses : Bool
  responses : List ResponseRow
deriving DecidableEq

/-- `User.is_admin`. -/
def is_admin (u : User) : Bool := u.role = "admin"

/-- `User.can_access_questionnaire`. -/
def can_access_questionnaire (u : User) (q : QuestionnaireRow) : Bool :=
  if is_admin u then true
  else if q.creator_id = u.id then true
  else if q.is_public then true
  else false

/-- `User.can_edit_questionnaire`. -/
def can_edit_questionnaire (u : User) (q : QuestionnaireRow) : Bool :=
  if is_admin u then true
  else q.creator_id = u.id

/-- `Questionnaire.user_has_responded`: a falsy (zero) user id short-circuits
to false, otherwise look for a complete response by that user. -/
def user_has_responded (q : QuestionnaireRow) (user_id : Nat) : Bool :=
  if user_id = 0 then false
  else q.responses.any fun r => r.user_id == some user_id && r.is_complete

/-- `Questionnaire.can_user_respond`. -/
def can_user_respond (q : QuestionnaireRow) (user : Option User) : Bool :=
  if !q.is_active then false
  else if user.isNone && !q.allow_anonymous then false
  else
    match user with
    | some u =>
      if !q.allow_multiple_responses && user_has_responded q u.id then false else true
    | none => true

/-- `Questionnaire.get_completion_rate`: the response collection is reduced
to its `is_complete` column. -/
def get_completion_rate (responses : List ResponseRow) : ℚ :=
  let total_responses := responses.length
  let complete_responses := (responses.filter (·.is_complete)).length
  if total_responses = 0 then 0
  else pyRound2 (((complete_responses : ℚ) / (total_responses : ℚ)) * 100)

/-- `Answer.set_value`: the resulting `(answer_text, answer_value)` pair for
a submitted (non-null) string and a question type. -/
def set_value (value : String) (question_type : String) : Option String × Option ℚ :=
  if question_type = "scale_1_5" then
    match pyFloat? value with
    | some x => (none, some x)
    | none => (none, none)
  else if question_type = "single_choice" ∨ question_type = "multiple_choice"
      ∨ question_type = "open_ended" then
    (some value, none)
  else
    (some value, none)

/-- `Response.get_completion_percentage`: required questions of the
questionnaire vs. the response's answer rows (an answer row of any content
counts, mirroring the `.first()` existence test). -/
def get_completion_percentage (qs : List Question) (ans : List AnswerRow) : ℚ :=
  let required_questions := (qs.filter (·.is_required)).length
  if required_questions = 0 then
    if ans.length > 0 then 100 else 0
  else
    let answered_required :=
      (qs.filter (·.is_required)).countP fun q => ans.any fun a => a.question_id == q.id
    pyRound2 (((answered_required : ℚ) / (required_questions : ℚ)) * 100)

/-- `Response.is_question_answered`: the first answer row for the question
must have truthy text or a non-null numeric value. -/
def is_question_answered (ans : List AnswerRow) (question_id : Nat) : Bool :=
  match ans.find? (fun a => a.question_id == question_id) with
  | none => false
  | some a =>
    (match a.answer_text with
     | some t => t ≠ ""
     | none => false) || a.answer_value.isSome

/-! ## Response intake workflow (`respond` in `app/questionnaire/routes.py`) -/

/-- A submitted form, as the multi-valued mapping Flask's `request.form`
presents: `form qid` is `request.form.getlist` for the field
`question_<qid>`, and `request.form.get` is its head. -/
def formGet (form : Nat → List String) (qid : Nat) : Option String :=
  (form qid).head?

/-- The get-or-create-then-overwrite step of the `respond` answer loop:
`Answer.query.filter_by(response_id=..., question_id=...).first()` finds the
first matching row and is overwritten; otherwise a fresh row is added. -/
def upsertAnswer (qid : Nat) (t : Option String) (v : Option ℚ) :
    List AnswerRow → List AnswerRow
  | [] => [⟨qid, t, v⟩]
  | a :: rest =>
    if a.question_id = qid then ⟨qid, t, v⟩ :: rest
    else a :: upsertAnswer qid t v rest

/-- One iteration of the `respond` answer loop for question `q`: skip falsy
submitted values; for `multiple_choice` replace the value by the comma-joined
`getlist`; store via `Answer.set_value`. -/
def processQuestion (form : Nat → List String) (ans : List AnswerRow) (q : Question) :
    List AnswerRow :=
  match formGet form q.id with
  | none => ans
  | some s =>
    if s = "" then ans
    else
      let raw := if q.question_type = "multiple_choice" then pyJoinComma (form q.id) else s
      let tv := set_value raw q.question_type
      upsertAnswer q.id tv.1 tv.2 ans

/-- The full answer loop of `respond` over the questionnaire's questions. -/
def processAnswers (form : Nat → List String) (qs : List Question)
    (ans : List AnswerRow) : List AnswerRow :=
  qs.foldl (processQuestion form) ans

/-- The `valid_submission` flag of `respond`: every required question has a
truthy submitted value. -/
def validSubmission (form : Nat → List String) (qs : List Question) : Bool :=
  qs.all fun q => !q.is_required || pyTruthy (formGet form q.id)

/-- Observable outcome of one POST to `respond` for one response: the
committed completeness flag and answer rows. -/
structure SubmitOutcome where
  is_complete : Bool
  answers : List AnswerRow
deriving DecidableEq

/-- A final-submit POST (no `save_draft` field): on a valid submission the
processed answers are committed and `is_complete` is set; otherwise the
session is rolled back, leaving the pre-attempt rows and a draft flag. -/
def finalSubmit (form : Nat → List String) (qs : List Question)
    (ans : List AnswerRow) : SubmitOutcome :=
  if validSubmission form qs then ⟨true, processAnswers form qs ans⟩
  else ⟨false, ans⟩

/-- A save-draft POST: same loop and rollback rule, but `is_complete` is
left false. -/
def saveDraft (form : Nat → List String) (qs : List Question)
    (ans : List AnswerRow) : SubmitOutcome :=
  if validSubmission form qs then ⟨false, processAnswers form qs ans⟩
  else ⟨false, ans⟩

/-! ## Analytics aggregator (`Question.get_answer_statistics`) -/

/-- An answer row joined with its response's completeness flag, the shape
`self.answers.join(Response)` iterates over. -/
structure AnswerEntry where
  answer_text : Option String
  answer_value : Option ℚ
  response_is_complete : Bool
deriving DecidableEq

/-- The statistics dictionary: total count, the frequency map in insertion
order, and (for open-ended questions) the sample list. -/
structure QuestionStats where
  total_answers : Nat
  answer_distribution : List (String × Nat)
  sample_responses : List String
deriving DecidableEq

/-- `stats['answer_distribution'][value] = ... .get(value, 0) + 1` on an
insertion-ordered association list, as a Python dict behaves. -/
def bumpCount (key : String) : List (String × Nat) → List (String × Nat)
  | [] => [(key, 1)]
  | (k, n) :: rest =>
    if k = key then (k, n + 1) :: rest
    else (k, n) :: bumpCount key rest

/-- `Question.get_answer_statistics` for a question of the given type whose
joined answers (in persistence order) are `entries`; only answers of complete
responses are aggregated.  Absent dictionary keys are modelled by an empty
list (`answer_distribution` for open-ended, `sample_responses` otherwise). -/
def get_answer_statistics (question_type : String) (entries : List AnswerEntry) :
    QuestionStats :=
  let answers := entries.filter (·.response_is_complete)
  if question_type = "single_choice" ∨ question_type = "multiple_choice" then
    let dist := answers.foldl
      (fun d a =>
        match a.answer_text with
        | none => d
        | some t =>
          if t = "" then d
          else ((pySplitComma t).map pyStrip).foldl
            (fun d v => if v = "" then d else bumpCount v d) d)
      []
    ⟨answers.length, dist, []⟩
  else if question_type = "scale_1_5" then
    let dist := answers.foldl
      (fun d a =>
        match a.answer_value with
        | none => d
        | some x => bumpCount (toString (pyIntTrunc x)) d)
      []
    ⟨answers.length, dist, []⟩
  else if question_type = "open_ended" then
    let sample := (answers.take 10).filterMap fun a =>
      match a.answer_text with
      | none => none
      | some t => if t = "" then none else some t
    ⟨answers.length, [], sample⟩
  else ⟨answers.length, [], []⟩

/-- Non-empty `answer_text` values of a list of joined answers, in order
(specification-side helper for stating the open-ended sample property). -/
def nonEmptyTexts (l : List AnswerEntry) : List String :=
  l.filterMap fun a =>
    match a.answer_text with
    | none => none
    | some t => if t = "" then none else some t

/-- A user has a complete response to a questionnaire
(specification-side predicate for the respond-permission claim). -/
def hasCompleteResponse (q : QuestionnaireRow) (uid : Nat) : Prop :=
  ∃ r ∈ q.responses, r.user_id = some uid ∧ r.is_complete = true

/-! ## Fixtures for concrete scenarios -/

/-- The questionnaire of the scale scenario: one required `scale_1_5`
question. -/
def scaleQ : Question := ⟨1, "scale_1_5", true⟩

/-- A form submitting the string `abc` for the scale question. -/
def abcForm : Nat → List String := fun qid => if qid = 1 then [("abc")] else []

/-- A multiple-choice question. -/
def mcQ : Question := ⟨2, "multiple_choice", false⟩

/-- A form in which options `A` and `B` are checked for question 2. -/
def abForm : Nat → List String := fun qid => if qid = 2 then [("A"), ("B")] else []

/-! ## Rounding lemmas -/

theorem floor_le_roundHalfEven (x : ℚ) : ⌊x⌋ ≤ roundHalfEven x := by
  unfold roundHalfEven
  split
  · exact le_refl _
  · split
    · omega
    · split <;> omega

theorem roundHalfEven_le_ceil (x : ℚ) : roundHalfEven x ≤ ⌈x⌉ := by
  have hfc : ⌊x⌋ ≤ ⌈x⌉ := Int.floor_le_ceil x
  have hkey : (1:ℚ)/2 ≤ x - ⌊x⌋ → ⌊x⌋ + 1 ≤ ⌈x⌉ := by
    intro h
    refine Int.add_one_le_ceil_iff.mpr ?_
    have : (0:ℚ) < x - ⌊x⌋ := lt_of_lt_of_le (by norm_num) h
    linarith
  unfold roundHalfEven
  split
  · exact hfc
  · split
    · exact hkey (by linarith)
    · split
      · exact hfc
      · exact hkey (by linarith)

theorem pyRound2_nonneg (x : ℚ) (hx : 0 ≤ x) : 0 ≤ pyRound2 x := by
  unfold pyRound2
  have h0 : (0:ℤ) ≤ ⌊x * 100⌋ := Int.floor_nonneg.mpr (by positivity)
  have h1 : (0:ℤ) ≤ roundHalfEven (x * 100) := le_trans h0 (floor_le_roundHalfEven _)
  have h2 : (0:ℚ) ≤ (roundHalfEven (x * 100) : ℚ) := by exact_mod_cast h1
  positivity

theorem pyRound2_le_100 (x : ℚ) (hx : x ≤ 100) : pyRound2 x ≤ 100 := by
  unfold pyRound2
  have h0 : ⌈x * 100⌉ ≤ 10000 := Int.ceil_le.mpr (by push_cast; linarith)
  have h1 : roundHalfEven (x * 100) ≤ 10000 := le_trans (roundHalfEven_le_ceil _) h0
  have h2 : (roundHalfEven (x * 100) : ℚ) ≤ 10000 := by exact_mod_cast h1
  linarith

theorem roundHalfEven_intCast (n : ℤ) : roundHalfEven (n : ℚ) = n := by
  unfold roundHalfEven
  rw [Int.floor_intCast]
  norm_num

theorem pyRound2_100 : pyRound2 100 = 100 := by
  unfold pyRound2
  have h : ((100:ℚ) * 100) = ((10000:ℤ) : ℚ) := by norm_num
  rw [h, roundHalfEven_intCast]
  norm_num

/-! ## Claim theorems -/

/-- C3: for every user and questionnaire, `can_edit_questionnaire` holds iff
the user is an admin or the questionnaire's creator, and
`can_access_questionnaire` holds iff the user is an admin, the creator, or
the questionnaire is public. -/
theorem permission_matrix (u : User) (q : QuestionnaireRow) :
    (can_edit_questionnaire u q = true ↔ u.role = "admin" ∨ q.creator_id = u.id) ∧
    (can_access_questionnaire u q = true ↔
      u.role = "admin" ∨ q.creator_id = u.id ∨ q.is_public = true) := by
  constructor
  · unfold can_edit_questionnaire is_admin
    split
    · simp_all
    · simp_all
  · unfold can_access_questionnaire is_admin
    split
    · simp_all
    · split
      · simp_all
      · split <;> simp_all

/-- C7: every questionnaire's completion rate lies in [0,100]; it is 0 for a
questionnaire with no responses and otherwise is the half-even rounding, to
two decimals, of 100 times the ratio of complete to total responses. -/
theorem completionRate_props (rs : List ResponseRow) :
    0 ≤ get_completion_rate rs ∧ get_completion_rate rs ≤ 100 ∧
    (rs = [] → get_completion_rate rs = 0) ∧
    (rs ≠ [] → get_completion_rate rs =
      pyRound2 ((((rs.filter (·.is_complete)).length : ℚ) / (rs.length : ℚ)) * 100)) := by
  by_cases h : rs = []
  · subst h
    simp [get_completion_rate]
  · have hlen : rs.length ≠ 0 := by simpa [List.length_eq_zero] using h
    have hrate : get_completion_rate rs =
        pyRound2 ((((rs.filter (·.is_complete)).length : ℚ) / (rs.length : ℚ)) * 100) := by
      simp [get_completion_rate, hlen]
    have hc : (rs.filter (·.is_complete)).length ≤ rs.length := List.length_filter_le _ _
    have hpos : (0:ℚ) < (rs.length : ℚ) := by
      have h0 : 0 < rs.length := Nat.pos_of_ne_zero hlen
      exact_mod_cast h0
    have hx0 : (0:ℚ) ≤ (((rs.filter (·.is_complete)).length : ℚ) / (rs.length : ℚ)) * 100 := by
      positivity
    have hx1 : (((rs.filter (·.is_complete)).length : ℚ) / (rs.length : ℚ)) * 100 ≤ 100 := by
      have hdiv : ((rs.filter (·.is_complete)).length : ℚ) / (rs.length : ℚ) ≤ 1 :=
        (div_le_one hpos).mpr (by exact_mod_cast hc)
      linarith
    refine ⟨?_, ?_, fun he => absurd he h, fun _ => hrate⟩
    · rw [hrate]; exact pyRound2_nonneg _ hx0
    · rw [hrate]; exact pyRound2_le_100 _ hx1

/-- An open-ended, optional question used as a concrete witness input. -/
def oeQ : Question := ⟨3, "open_ended", false⟩

/-- A concrete answer row for question 3. -/
def xRow : AnswerRow := ⟨3, some ("x"), none⟩

/-- C8: for a response to a questionnaire with no required questions, the
completion percentage is 100 exactly when the response has at least one
answer row, and 0 when it has none. -/
theorem completionPercentage_no_required (qs : List Question) (ans : List AnswerRow)
    (h : (qs.filter (·.is_required)).length = 0) :
    (get_completion_percentage qs ans = 100 ↔ ans ≠ []) ∧
    (ans = [] → get_completion_percentage qs ans = 0) := by
  have hval : get_completion_percentage qs ans = if ans.length > 0 then 100 else 0 := by
    simp [get_completion_percentage, h]
  by_cases ha : ans = []
  · subst ha
    simp [hval]
  · have hpos : 0 < ans.length := List.length_pos.mpr ha
    rw [hval]
    simp [hpos, ha]

/-- Witness for C8 at a one-question questionnaire with one answer row. -/
theorem completionPercentage_no_required_witness :
    (get_completion_percentage [oeQ] [xRow] = 100 ↔ [xRow] ≠ ([] : List AnswerRow)) ∧
    (([xRow] : List AnswerRow) = [] → get_completion_percentage [oeQ] [xRow] = 0) :=
  completionPercentage_no_required [oeQ] [xRow] (by decide)

/-- C10: an answer row with both payload fields null — exactly what
`set_value` produces for the failed scale parse of `abc` — makes its
required question count as answered for `get_completion_percentage`
(yielding 100 with no usable value), while `is_question_answered` rejects
the same row. -/
theorem emptyAnswer_counts_for_completion (q : Question) (h : q.is_required = true) :
    set_value ("abc") ("scale_1_5") = (none, none) ∧
    get_completion_percentage [q] [⟨q.id, none, none⟩] = 100 ∧
    is_question_answered [⟨q.id, none, none⟩] q.id = false := by
  refine ⟨by decide, ?_, ?_⟩
  · simp [get_completion_percentage, h, List.countP, List.countP.go]
    exact pyRound2_100
  · simp [is_question_answered]

/-- Witness for C10 at the concrete required scale question. -/
theorem emptyAnswer_counts_witness :
    set_value ("abc") ("scale_1_5") = (none, none) ∧
    get_completion_percentage [scaleQ] [⟨scaleQ.id, none, none⟩] = 100 ∧
    is_question_answered [⟨scaleQ.id, none, none⟩] scaleQ.id = false :=
  emptyAnswer_counts_for_completion scaleQ (by decide)

theorem user_has_responded_iff (q : QuestionnaireRow) (uid : Nat) (h : uid ≠ 0) :
    user_has_responded q uid = true ↔ hasCompleteResponse q uid := by
  unfold user_has_responded hasCompleteResponse
  simp [h, List.any_eq_true, Bool.and_eq_true, beq_iff_eq]

/-- A questionnaire used as a concrete witness input: active, public,
single-response, with one draft response by user 1. -/
def respEx : QuestionnaireRow := ⟨7, true, true, false, false, [⟨some 1, false⟩]⟩

/-- A plain user used as a concrete witness input. -/
def uEx : User := ⟨1, ("user")⟩

/-- C4: `can_user_respond` is false exactly when the questionnaire is
inactive, or the actor is anonymous and anonymity is disallowed, or the
actor is present, multiple responses are disallowed and the actor already
has a complete response; draft responses never block responding. -/
theorem canRespond_spec (q : QuestionnaireRow) (user : Option User)
    (hid : ∀ u, user = some u → u.id ≠ 0) :
    can_user_respond q user = true ↔
      (q.is_active = true ∧
       (user = none → q.allow_anonymous = true) ∧
       (∀ u, user = some u → q.allow_multiple_responses = false →
          ¬ hasCompleteResponse q u.id)) := by
  cases user with
  | none =>
    cases ha : q.is_active <;> cases hb : q.allow_anonymous <;>
      simp [can_user_respond, ha, hb]
  | some u =>
    have hu : u.id ≠ 0 := hid u rfl
    have hcr : hasCompleteResponse q u.id ↔ user_has_responded q u.id = true :=
      (user_has_responded_iff q u.id hu).symm
    cases ha : q.is_active <;> cases hm : q.allow_multiple_responses <;>
      cases hr : user_has_responded q u.id <;>
        simp [can_user_respond, ha, hm, hr, hcr]

/-- Witness for C4: a user with only a draft response may respond again to a
single-response questionnaire. -/
theorem canRespond_spec_witness : can_user_respond respEx (some uEx) = true := by
  refine (canRespond_spec respEx (some uEx) ?_).mpr ⟨rfl, ?_, ?_⟩
  · intro u hu
    cases hu
    decide
  · intro hnone
    exact Option.noConfusion hnone
  · intro u hu hm hc
    cases hu
    rcases hc with ⟨r, hr, h1, h2⟩
    simp [respEx] at hr
    subst hr
    simp at h2

/-- The empty form: no field submitted. -/
def emptyForm : Nat → List String := fun _ => []

/-- C1 counterexample: submitting `abc` for the single required scale
question makes the final submit succeed — `is_complete` becomes true, not
false as the claim states. -/
theorem scaleAbc_counterexample :
    (finalSubmit abcForm [scaleQ] []).is_complete = true := by decide

/-- C1 amended: the `abc` submission stores one answer row with both
payload fields empty, and the transition to complete is accepted. -/
theorem scaleAbc_amended :
    finalSubmit abcForm [scaleQ] [] = ⟨true, [⟨1, none, none⟩]⟩ := by decide

/-- C2: a final submit in which some required question has a falsy
submitted value leaves the response a draft and persists no answer rows
from the attempt. -/
theorem finalSubmit_all_or_nothing (form : Nat → List String) (qs : List Question)
    (ans : List AnswerRow)
    (h : ∃ q ∈ qs, q.is_required = true ∧ pyTruthy (formGet form q.id) = false) :
    finalSubmit form qs ans = ⟨false, ans⟩ := by
  have hnot : ¬ (validSubmission form qs = true) := by
    rcases h with ⟨q, hq, hreq, hval⟩
    unfold validSubmission
    rw [List.all_eq_true]
    push_neg
    exact ⟨q, hq, by simp [hreq, hval]⟩
  have hv : validSubmission form qs = false := by
    cases hvs : validSubmission form qs
    · rfl
    · exact absurd hvs hnot
  unfold finalSubmit
  simp [hv]

/-- Witness for C2: the empty form against the required scale question. -/
theorem finalSubmit_all_or_nothing_witness :
    finalSubmit emptyForm [scaleQ] [] = ⟨false, []⟩ :=
  finalSubmit_all_or_nothing emptyForm [scaleQ] []
    ⟨scaleQ, by decide, by decide, by decide⟩

/-- C5: checked options `A` and `B` are stored as the single answer text
`A, B`, and the statistics of a complete response holding that text split
it back into counts A:1, B:1. -/
theorem multiChoice_roundTrip :
    processQuestion abForm [] mcQ = [⟨2, some ("A, B"), none⟩] ∧
    get_answer_statistics ("multiple_choice") [⟨some ("A, B"), none, true⟩] =
      ⟨1, [(("A"), 1), (("B"), 1)], []⟩ := by decide

/-- Eleven answers of complete responses for an open-ended question: the
first has no text, the remaining ten have texts `t1` … `t10`. -/
def oeEntries : List AnswerEntry :=
  [⟨none, none, true⟩,
   ⟨some ("t1"), none, true⟩, ⟨some ("t2"), none, true⟩, ⟨some ("t3"), none, true⟩,
   ⟨some ("t4"), none, true⟩, ⟨some ("t5"), none, true⟩, ⟨some ("t6"), none, true⟩,
   ⟨some ("t7"), none, true⟩, ⟨some ("t8"), none, true⟩, ⟨some ("t9"), none, true⟩,
   ⟨some ("t10"), none, true⟩]

/-- C9 counterexample: with ten non-empty texts available but an empty one
among the first ten answers, the sample holds only nine values and the
later non-empty text `t10` is not pulled in. -/
theorem openEnded_sample_counterexample :
    (get_answer_statistics ("open_ended") oeEntries).sample_responses.length = 9 ∧
    (("t10") ∈ nonEmptyTexts (oeEntries.filter (·.response_is_complete))) ∧
    ¬ (("t10") ∈ (get_answer_statistics ("open_ended") oeEntries).sample_responses) := by
  decide

/-- C9 amended: the open-ended sample is the list of non-empty texts among
the first ten answers of complete responses (in creation order); it has at
most ten entries and is an order-preserving selection of all non-empty
texts, but empty slots among the first ten are not backfilled. -/
theorem openEnded_sample_amended (entries : List AnswerEntry) :
    (get_answer_statistics ("open_ended") entries).sample_responses =
      nonEmptyTexts ((entries.filter (·.response_is_complete)).take 10) ∧
    (get_answer_statistics ("open_ended") entries).sample_responses.length ≤ 10 ∧
    (get_answer_statistics ("open_ended") entries).sample_responses.Sublist
      (nonEmptyTexts (entries.filter (·.response_is_complete))) := by
  have h1 : (get_answer_statistics ("open_ended") entries).sample_responses =
      nonEmptyTexts ((entries.filter (·.response_is_complete)).take 10) := by
    simp [get_answer_statistics, nonEmptyTexts]
  refine ⟨h1, ?_, ?_⟩
  · rw [h1]
    unfold nonEmptyTexts
    exact le_trans (List.length_filterMap_le _ _)
      (List.length_take_le 10 (entries.filter (·.response_is_complete)))
  · rw [h1]
    exact List.Sublist.filterMap _ (List.take_sublist 10 _)

/-! ## Draft-save idempotence (C6) -/

/-- First answer row of a response for a given question, the embedding of
`filter_by(response_id=..., question_id=...).first()`. -/
def findAnswer (qid : Nat) (l : List AnswerRow) : Option AnswerRow :=
  l.find? fun a => a.question_id == qid

/-- The value the answer loop would store for question `q` under `form`:
`none` when the submitted value is falsy and the question is skipped. -/
def targetPair (form : Nat → List String) (q : Question) :
    Option (Option String × Option ℚ) :=
  match formGet form q.id with
  | none => none
  | some s =>
    if s = "" then none
    else some (set_value
      (if q.question_type = "multiple_choice" then pyJoinComma (form q.id) else s)
      q.question_type)

theorem processQuestion_eq (form : Nat → List String) (l : List AnswerRow) (q : Question) :
    processQuestion form l q =
      match targetPair form q with
      | none => l
      | some tv => upsertAnswer q.id tv.1 tv.2 l := by
  unfold processQuestion targetPair
  cases formGet form q.id with
  | none => rfl
  | some s =>
    by_cases hs : s = "" <;> simp [hs]

theorem findAnswer_upsert_self (qid : Nat) (t : Option String) (v : Option ℚ)
    (l : List AnswerRow) :
    findAnswer qid (upsertAnswer qid t v l) = some ⟨qid, t, v⟩ := by
  induction l with
  | nil => simp [findAnswer, upsertAnswer]
  | cons a rest ih =>
    by_cases h : a.question_id = qid
    · simp [findAnswer, upsertAnswer, h]
    · simpa [findAnswer, upsertAnswer, h] using ih

theorem findAnswer_upsert_other {qid qid' : Nat} (hne : qid ≠ qid')
    (t : Option String) (v : Option ℚ) (l : List AnswerRow) :
    findAnswer qid (upsertAnswer qid' t v l) = findAnswer qid l := by
  induction l with
  | nil =>
    simp [findAnswer, upsertAnswer]
    omega
  | cons a rest ih =>
    by_cases h : a.question_id = qid'
    · simp [findAnswer, upsertAnswer, h, hne, Ne.symm hne]
    · by_cases h2 : a.question_id = qid
      · simp [findAnswer, upsertAnswer, h, h2, hne]
      · simpa [findAnswer, upsertAnswer, h, h2] using ih

theorem upsert_of_found {qid : Nat} {t : Option String} {v : Option ℚ}
    {l : List AnswerRow} (h : findAnswer qid l = some ⟨qid, t, v⟩) :
    upsertAnswer qid t v l = l := by
  induction l with
  | nil => simp [findAnswer] at h
  | cons a rest ih =>
    by_cases ha : a.question_id = qid
    · have hfind : findAnswer qid (a :: rest) = some a := by
        simp [findAnswer, ha]
      rw [hfind] at h
      have : a = ⟨qid, t, v⟩ := Option.some_inj.mp h
      simp [upsertAnswer, ha, this]
    · have hfind : findAnswer qid (a :: rest) = findAnswer qid rest := by
        simp [findAnswer, ha]
      rw [hfind] at h
      simp [upsertAnswer, ha, ih h]

theorem upsert_idem (qid : Nat) (t : Option String) (v : Option ℚ) (l : List AnswerRow) :
    upsertAnswer qid t v (upsertAnswer qid t v l) = upsertAnswer qid t v l :=
  upsert_of_found (findAnswer_upsert_self qid t v l)

theorem processQuestion_idem (form : Nat → List String) (l : List AnswerRow) (q : Question) :
    processQuestion form (processQuestion form l q) q = processQuestion form l q := by
  cases ht : targetPair form q with
  | none => simp [processQuestion_eq, ht]
  | some tv => simp [processQuestion_eq, ht, upsert_idem]

theorem findAnswer_processQuestion_other (form : Nat → List String) {q' : Question}
    {qid : Nat} (hne : qid ≠ q'.id) (l : List AnswerRow) :
    findAnswer qid (processQuestion form l q') = findAnswer qid l := by
  cases ht : targetPair form q' with
  | none => simp [processQuestion_eq, ht]
  | some tv => simp [processQuestion_eq, ht, findAnswer_upsert_other hne]

theorem stepFixed_step (form : Nat → List String) {q q' : Question}
    (hne : q.id ≠ q'.id) {l : List AnswerRow}
    (hfix : processQuestion form l q = l) :
    processQuestion form (processQuestion form l q') q = processQuestion form l q' := by
  cases ht : targetPair form q with
  | none => simp [processQuestion_eq, ht]
  | some tv =>
    have hfound : findAnswer q.id l = some ⟨q.id, tv.1, tv.2⟩ := by
      conv_lhs => rw [← hfix]
      simp [processQuestion_eq, ht, findAnswer_upsert_self]
    have hfound2 : findAnswer q.id (processQuestion form l q') = some ⟨q.id, tv.1, tv.2⟩ := by
      rw [findAnswer_processQuestion_other form hne, hfound]
    calc processQuestion form (processQuestion form l q') q
        = upsertAnswer q.id tv.1 tv.2 (processQuestion form l q') := by
          simp [processQuestion_eq, ht]
      _ = processQuestion form l q' := upsert_of_found hfound2

theorem stepFixed_processAnswers (form : Nat → List String) {q : Question}
    (rest : List Question) (hne : ∀ q' ∈ rest, q.id ≠ q'.id) {l : List AnswerRow}
    (hfix : processQuestion form l q = l) :
    processQuestion form (processAnswers form rest l) q = processAnswers form rest l := by
  induction rest generalizing l with
  | nil => exact hfix
  | cons q' rest' ih =>
    have h1 : processAnswers form (q' :: rest') l =
        processAnswers form rest' (processQuestion form l q') := rfl
    rw [h1]
    exact ih (fun r hr => hne r (List.mem_cons_of_mem _ hr))
      (stepFixed_step form (hne q' (List.mem_cons_self _ _)) hfix)

theorem processQuestion_fixed_after (form : Nat → List String) (qs : List Question)
    (l : List AnswerRow) (hnd : (qs.map (·.id)).Nodup) :
    ∀ q ∈ qs, processQuestion form (processAnswers form qs l) q = processAnswers form qs l := by
  induction qs generalizing l with
  | nil => intro q hq; cases hq
  | cons q0 rest ih =>
    rw [List.map_cons, List.nodup_cons] at hnd
    intro q hq
    have h1 : processAnswers form (q0 :: rest) l =
        processAnswers form rest (processQuestion form l q0) := rfl
    rcases List.mem_cons.mp hq with rfl | hmem
    · rw [h1]
      refine stepFixed_processAnswers form rest ?_ (processQuestion_idem form l q)
      intro q' hq' heq
      exact hnd.1 (heq ▸ List.mem_map_of_mem (·.id) hq')
    · rw [h1]
      exact ih (processQuestion form l q0) hnd.2 q hmem

theorem processAnswers_fixed (form : Nat → List String) (qs : List Question)
    (l : List AnswerRow)
    (h : ∀ q ∈ qs, processQuestion form l q = l) :
    processAnswers form qs l = l := by
  induction qs with
  | nil => rfl
  | cons q rest ih =>
    have h1 : processAnswers form (q :: rest) l =
        processAnswers form rest (processQuestion form l q) := rfl
    rw [h1, h q (List.mem_cons_self _ _)]
    exact ih fun q' hq' => h q' (List.mem_cons_of_mem _ hq')

theorem processAnswers_idem (form : Nat → List String) (qs : List Question)
    (l : List AnswerRow) (hnd : (qs.map (·.id)).Nodup) :
    processAnswers form qs (processAnswers form qs l) = processAnswers form qs l :=
  processAnswers_fixed form qs _ (processQuestion_fixed_after form qs l hnd)

theorem mem_ids_upsert {x qid : Nat} {t : Option String} {v : Option ℚ}
    {l : List AnswerRow}
    (h : x ∈ (upsertAnswer qid t v l).map (·.question_id)) :
    x = qid ∨ x ∈ l.map (·.question_id) := by
  induction l with
  | nil => simpa [upsertAnswer] using h
  | cons a rest ih =>
    by_cases ha : a.question_id = qid
    · simp [upsertAnswer, ha] at h
      rcases h with h | h
      · exact Or.inl h
      · exact Or.inr (by simp [h])
    · simp [upsertAnswer, ha] at h
      rcases h with h | h
      · exact Or.inr (by simp [h])
      · rcases ih (by simpa using h) with h2 | h2
        · exact Or.inl h2
        · exact Or.inr (by simp at h2 ⊢; exact Or.inr h2)

theorem nodup_ids_upsert {qid : Nat} {t : Option String} {v : Option ℚ}
    {l : List AnswerRow} (h : (l.map (·.question_id)).Nodup) :
    ((upsertAnswer qid t v l).map (·.question_id)).Nodup := by
  induction l with
  | nil => simp [upsertAnswer]
  | cons a rest ih =>
    rw [List.map_cons, List.nodup_cons] at h
    by_cases ha : a.question_id = qid
    · rw [show upsertAnswer qid t v (a :: rest) = ⟨qid, t, v⟩ :: rest by
        simp [upsertAnswer, ha]]
      rw [List.map_cons, List.nodup_cons]
      exact ⟨ha ▸ h.1, h.2⟩
    · rw [show upsertAnswer qid t v (a :: rest) = a :: upsertAnswer qid t v rest by
        simp [upsertAnswer, ha]]
      rw [List.map_cons, List.nodup_cons]
      refine ⟨?_, ih h.2⟩
      intro hmem
      rcases mem_ids_upsert hmem with h2 | h2
      · exact ha h2
      · exact h.1 h2

theorem nodup_ids_processQuestion (form : Nat → List String) {l : List AnswerRow}
    (q : Question) (h : (l.map (·.question_id)).Nodup) :
    ((processQuestion form l q).map (·.question_id)).Nodup := by
  cases ht : targetPair form q with
  | none => simpa [processQuestion_eq, ht] using h
  | some tv =>
    rw [processQuestion_eq, ht]
    exact nodup_ids_upsert h

theorem nodup_ids_processAnswers (form : Nat → List String) (qs : List Question)
    {l : List AnswerRow} (h : (l.map (·.question_id)).Nodup) :
    ((processAnswers form qs l).map (·.question_id)).Nodup := by
  induction qs generalizing l with
  | nil => exact h
  | cons q rest ih => exact ih (nodup_ids_processQuestion form q h)

/-- C6: saving a draft twice with the same form data commits the same
answer rows as saving it once — each question's row is found by its
(response, question) key and overwritten, not duplicated — and the rows of
a duplicate-free response stay duplicate-free. -/
theorem draftSave_idempotent (form : Nat → List String) (qs : List Question)
    (ans : List AnswerRow) (hnd : (qs.map (·.id)).Nodup) :
    saveDraft form qs (saveDraft form qs ans).answers = saveDraft form qs ans ∧
    ((ans.map (·.question_id)).Nodup →
      ((saveDraft form qs ans).answers.map (·.question_id)).Nodup) := by
  unfold saveDraft
  cases hv : validSubmission form qs
  · simp
  · simpa using ⟨processAnswers_idem form qs ans hnd,
      fun ha => nodup_ids_processAnswers form qs ha⟩

/-- Witness for C6: the checkbox form saved twice on an empty draft. -/
theorem draftSave_idempotent_witness :
    saveDraft abForm [mcQ] (saveDraft abForm [mcQ] []).answers = saveDraft abForm [mcQ] [] ∧
    ((([] : List AnswerRow).map (·.question_id)).Nodup →
      ((saveDraft abForm [mcQ] []).answers.map (·.question_id)).Nodup) :=
  draftSave_idempotent abForm [mcQ] [] (by decide)

end QApp
